import Mathlib

/-!
Verification of the io-event selector backends (epoll.c / kqueue.c).

This file gives a shallow embedding of the parts of the two backend source
files that the checked claims are about: the logical/kernel event-bit
translations, the intrusive waiter-list discipline and the dispatch walk of
`IO_Event_Selector_EPoll_handle` / `IO_Event_Selector_KQueue_handle`, the
arming phase of `IO_Event_Selector_EPoll_io_wait`, the cancellation handling
of `io_wait_transfer` / `process_wait_transfer`, the two-phase structure of
`select`, and the buffered read/write loops.  Kernel syscalls and the host
runtime are represented by oracles (explicit result parameters) and by
transcripts of the calls the code would issue.

Machine integers: event masks are small bitmasks, far below any overflow
boundary, so they are modelled as `Nat` with `&&&` / `|||`.  Buffer sizes and
offsets are `size_t` values; the loops only add read/write results (bounded by
the buffer size) to the offset, so `Nat` models them faithfully.
-/

namespace IOEvent

/-- Logical event bits.  Modelled from the spec: the `IO_EVENT_*` constants
live in a header that is not among the sources; the spec fixes the set
{READABLE, WRITABLE, PRIORITY, EXIT} of distinct bits. -/
def IO_EVENT_READABLE : Nat := 1

/-- Logical event bit for priority data (spec: PRIORITY). -/
def IO_EVENT_PRIORITY : Nat := 2

/-- Logical event bit for writability (spec: WRITABLE). -/
def IO_EVENT_WRITABLE : Nat := 4

/-- Logical event bit for child-process exit (spec: EXIT). -/
def IO_EVENT_EXIT : Nat := 8

/-- Linux `EPOLLIN` bit. -/
def EPOLLIN : Nat := 1

/-- Linux `EPOLLPRI` bit. -/
def EPOLLPRI : Nat := 2

/-- Linux `EPOLLOUT` bit. -/
def EPOLLOUT : Nat := 4

/-- Linux `EPOLLERR` bit. -/
def EPOLLERR : Nat := 8

/-- Linux `EPOLLHUP` bit. -/
def EPOLLHUP : Nat := 16

/-- `epoll_flags_from_events` (epoll.c lines 329-343): builds the kernel mask
from the logical mask; always sets `EPOLLHUP` and `EPOLLERR`. -/
def epoll_flags_from_events (events : Nat) : Nat :=
  let flags : Nat := 0
  let flags := if events &&& IO_EVENT_READABLE != 0 then flags ||| EPOLLIN else flags
  let flags := if events &&& IO_EVENT_PRIORITY != 0 then flags ||| EPOLLPRI else flags
  let flags := if events &&& IO_EVENT_WRITABLE != 0 then flags ||| EPOLLOUT else flags
  let flags := flags ||| EPOLLHUP
  let flags := flags ||| EPOLLERR
  flags

/-- `events_from_epoll_flags` (epoll.c lines 345-358): translates a kernel
event mask into logical events, folding `EPOLLHUP`/`EPOLLERR` into READABLE. -/
def events_from_epoll_flags (flags : Nat) : Nat :=
  let events : Nat := 0
  let events := if flags &&& (EPOLLIN ||| EPOLLHUP ||| EPOLLERR) != 0 then events ||| IO_EVENT_READABLE else events
  let events := if flags &&& EPOLLPRI != 0 then events ||| IO_EVENT_PRIORITY else events
  let events := if flags &&& EPOLLOUT != 0 then events ||| IO_EVENT_WRITABLE else events
  events

/-- Bitmask inclusion stated as an equation: every bit of `a` is a bit of `b`. -/
def bitsSub (a b : Nat) : Prop := a &&& b = a

instance bitsSub_decidable (a b : Nat) : Decidable (bitsSub a b) :=
  inferInstanceAs (Decidable (a &&& b = a))

/-! ## The two-phase `select` (claim C3)

`IO_Event_Selector_EPoll_select` (epoll.c lines 791-836) and
`IO_Event_Selector_KQueue_select` (kqueue.c lines 736-795) share the same
control flow: flush the ready queue, do a nonblocking kernel poll, and only
if nothing was found anywhere do a blocking kernel poll governed by
`duration`.  The kernel polls are oracles here (`nbCount`, `blockingCount`);
`ready` is the value returned by `IO_Event_Selector_queue_flush`, and
`backendReady` is the truthiness of `selector->backend.ready`. -/

/-- Kernel wait duration. `timespec` stands for the float branch of
`make_timeout`; the double arithmetic splitting the float into whole seconds
and nanoseconds is done outside the model. -/
inductive Duration where
  | nil
  | fixnum (n : Int)
  | timespec (sec nsec : Int)
deriving DecidableEq, Repr

/-- A `struct timespec` value. -/
structure Timespec where
  sec : Int
  nsec : Int
deriving DecidableEq, Repr

/-- `make_timeout` (epoll.c lines 622-646, kqueue.c lines 619-643): `nil`
durations become a NULL timeout pointer (`none`); numeric durations become a
timespec. -/
def make_timeout : Duration → Option Timespec
  | .nil => none
  | .fixnum n => some ⟨n, 0⟩
  | .timespec s ns => some ⟨s, ns⟩

/-- `timeout_nonblocking` (epoll.c lines 648-651, kqueue.c lines 645-648):
true iff the timeout pointer is non-NULL and denotes zero time. -/
def timeout_nonblocking : Option Timespec → Bool
  | none => false
  | some t => t.sec == 0 && t.nsec == 0

/-- `make_timeout_ms` (epoll.c lines 663-673): millisecond timeout for the
`epoll_wait` fallback; NULL maps to `-1` (infinite). -/
def make_timeout_ms : Option Timespec → Int
  | none => -1
  | some t => if timeout_nonblocking (some t) then 0 else t.sec * 1000 + t.nsec / 1000000

/-- Outcome of the phase selection inside `select`: whether the blocking
kernel wait ran, the timeout it was given, and the event count the dispatch
loop will see. -/
structure SelectPhases where
  blockingPerformed : Bool
  blockingTimeout : Option Timespec
  count : Nat
deriving DecidableEq, Repr

/-- Phase structure of `IO_Event_Selector_EPoll_select` (epoll.c lines
795-822): nonblocking poll first (its count is the oracle `nbCount`), then a
blocking poll only when the flush found nothing, the poll found nothing and
the ready list is empty, and the duration is not zero. -/
def EPoll_select_phases (ready nbCount : Nat) (backendReady : Bool)
    (duration : Duration) (blockingCount : Nat) : SelectPhases :=
  if ready == 0 && nbCount == 0 && !backendReady then
    let timeout := make_timeout duration
    if !timeout_nonblocking timeout then
      ⟨true, timeout, blockingCount⟩
    else
      ⟨false, timeout, nbCount⟩
  else
    ⟨false, some ⟨0, 0⟩, nbCount⟩

/-- Phase structure of `IO_Event_Selector_KQueue_select` (kqueue.c lines
740-778); identical control flow to the epoll variant. -/
def KQueue_select_phases (ready nbCount : Nat) (backendReady : Bool)
    (duration : Duration) (blockingCount : Nat) : SelectPhases :=
  if ready == 0 && nbCount == 0 && !backendReady then
    let timeout := make_timeout duration
    if !timeout_nonblocking timeout then
      ⟨true, timeout, blockingCount⟩
    else
      ⟨false, timeout, nbCount⟩
  else
    ⟨false, some ⟨0, 0⟩, nbCount⟩

/-! ## The intrusive waiter list

The list header is not among the sources; the node structure and the
operations `IO_Event_List_prepend`, `IO_Event_List_append` and
`IO_Event_List_pop` are modelled from the spec: §2.A describes a circular
doubly-linked list used as sentinel head and as waiter entries, with
prepend, append-adjacent and remove, and §4.3 together with §5 fixes the
orientation — the dispatch walk starts at the sentinel's `tail` pointer,
advances through `tail` pointers, head-insertion puts the newest waiter on
the sentinel's `head` side, so the walk visits the oldest waiter first. -/

/-- A `struct IO_Event_List` node: a pair of pointers (NULL = `none`).
Node identities (addresses) are naturals. -/
structure Node where
  head : Option Nat
  tail : Option Nat
deriving DecidableEq, Repr

/-- A node with both pointers NULL: the initial state of the `saved` local
in the handlers, and what `IO_Event_List_pop` leaves behind. -/
def Node.unlinked : Node := ⟨none, none⟩

/-- The heap of list nodes. -/
def Store : Type := Nat → Node

/-- Pointer write: replace the node at address `i`. -/
def setNode (st : Store) (i : Nat) (n : Node) : Store :=
  fun j => if j = i then n else st j

/-- Write only the `head` pointer of the node at `i`. -/
def setHead (st : Store) (i : Nat) (h : Option Nat) : Store :=
  setNode st i ⟨h, (st i).tail⟩

/-- Write only the `tail` pointer of the node at `i`. -/
def setTail (st : Store) (i : Nat) (t : Option Nat) : Store :=
  setNode st i ⟨(st i).head, t⟩

/-- Modelled from the spec: link `n` on the head side of the anchor `a`
(used with the sentinel as anchor to insert a waiter at the HEAD of the
descriptor's list, §4.1). -/
def IO_Event_List_prepend (st : Store) (a n : Nat) : Store :=
  match (st a).head with
  | some h =>
    let st1 := setNode st n ⟨some h, some a⟩
    let st2 := setTail st1 h (some n)
    setHead st2 a (some n)
  | none => st

/-- Modelled from the spec: link `n` on the tail side of the anchor `a`
(§4.3(a): splice the one-element `saved` list next to the current node so
that its `tail` pointer yields the next iteration node). -/
def IO_Event_List_append (st : Store) (a n : Nat) : Store :=
  match (st a).tail with
  | some t =>
    let st1 := setNode st n ⟨some a, some t⟩
    let st2 := setHead st1 t (some n)
    setTail st2 a (some n)
  | none => st

/-- Modelled from the spec: remove `n` from its list if linked, NULLing its
pointers (§2.A "remove"; §3 waiter lifecycle). -/
def IO_Event_List_pop (st : Store) (n : Nat) : Store :=
  match (st n).head, (st n).tail with
  | some h, some t =>
    let st1 := setTail st h (some t)
    let st2 := setHead st1 t (some h)
    setNode st2 n Node.unlinked
  | _, _ => st

/-! ## The dispatch walk (claims C1, C2, C9) -/

/-- A `struct IO_Event_Selector_*_Waiting` payload: the requested event mask
and the fiber, read through the node address (epoll.c lines 41-50, kqueue.c
lines 42-51).  A waiter's payload never changes while it is linked, so it is
a map on the side of the pointer store. -/
structure Waiting where
  events : Nat
  fiber : Nat
deriving DecidableEq, Repr

/-- Result of the dispatch walk: the final node store, the transcript of
`IO_Event_Selector_fiber_transfer` calls as (node, fiber, argument) triples
in order, and the final `matched_events` accumulator. -/
structure WalkResult where
  store : Store
  log : List (Nat × Nat × Nat)
  matched : Nat

/-- Effect of a resumed fiber on the descriptor's list: under cooperative
scheduling the fiber either runs into its wait primitive's cleanup and pops
its own waiting node (`io_wait_ensure`), or suspends again leaving the list
alone. -/
def selfPop (removes : Nat → Bool) (n : Nat) (st : Store) : Store :=
  if removes n then IO_Event_List_pop st n else st

/-- The dispatch walk shared by `IO_Event_Selector_EPoll_handle` (epoll.c
lines 749-773) and `IO_Event_Selector_KQueue_handle` (kqueue.c lines
711-733): walk from `list->tail` towards the sentinel; for each waiter whose
mask intersects `ioEvent`, splice the one-element `saved` list after the
node, transfer to the fiber with the intersection as argument, then read the
next node from `saved`'s tail pointer and unsplice.  `effect` is what the
resumed fiber does to the list before control returns; `fuel` bounds the C
`while` loop; a NULL pointer where the C would dereference ends the walk. -/
def handle_walk_loop (payload : Nat → Waiting) (effect : Nat → Store → Store)
    (ioEvent listId savedId : Nat) :
    Nat → Store → Nat → Nat → WalkResult
  | 0, st, _, matched => ⟨st, [], matched⟩
  | fuel + 1, st, node, matched =>
    if node = listId then ⟨st, [], matched⟩
    else
      let w := payload node
      let matching := w.events &&& ioEvent
      if matching != 0 then
        let st1 := IO_Event_List_append st node savedId
        let st2 := effect node st1
        match (st2 savedId).tail with
        | some node1 =>
          let st3 := IO_Event_List_pop st2 savedId
          let r := handle_walk_loop payload effect ioEvent listId savedId fuel st3 node1
            (matched ||| matching)
          ⟨r.store, (node, w.fiber, matching) :: r.log, r.matched⟩
        | none => ⟨st2, [(node, w.fiber, matching)], matched ||| matching⟩
      else
        match (st node).tail with
        | some node1 => handle_walk_loop payload effect ioEvent listId savedId fuel st node1 matched
        | none => ⟨st, [], matched⟩

/-- Entry of the dispatch walk: `node = list->tail` (epoll.c line 749,
kqueue.c line 711), `saved = {NULL, NULL}`, `matched_events = 0`. -/
def handle_walk (payload : Nat → Waiting) (effect : Nat → Store → Store)
    (ioEvent listId savedId fuel : Nat) (st : Store) : WalkResult :=
  match (st listId).tail with
  | some node => handle_walk_loop payload effect ioEvent listId savedId fuel st node 0
  | none => ⟨st, [], 0⟩

/-- Well-formedness of a doubly-linked segment: following `tail` pointers
from `a` visits exactly `ws` and then reaches `b`, with matching inverse
`head` pointers. -/
def segB (st : Store) : Nat → List Nat → Nat → Bool
  | a, [], b => ((st a).tail == some b) && ((st b).head == some a)
  | a, n :: ws, b => ((st a).tail == some n) && ((st n).head == some a) && segB st n ws b

/-- Expected transcript of the dispatch walk: the waiters in walk order whose
requested events intersect the fired events, each resumed with the
intersection. -/
def walkLog (payload : Nat → Waiting) (ioEvent : Nat) (ws : List Nat) :
    List (Nat × Nat × Nat) :=
  ws.filterMap fun n =>
    if (payload n).events &&& ioEvent != 0 then
      some (n, (payload n).fiber, (payload n).events &&& ioEvent)
    else none

/-- Expected `matched_events` value: the left fold of `|||` over the walk's
intersections (OR-ing a zero intersection is the identity). -/
def walkMatched (payload : Nat → Waiting) (ioEvent : Nat) (ws : List Nat) (m0 : Nat) : Nat :=
  ws.foldl (fun acc n => acc ||| ((payload n).events &&& ioEvent)) m0

/-- Demonstration store: sentinel 0 with waiters 1 (oldest, at the tail side)
and 2 (newest, at the head side) linked in a ring. -/
def demoStore : Store := fun i =>
  if i = 0 then ⟨some 2, some 1⟩
  else if i = 1 then ⟨some 0, some 2⟩
  else if i = 2 then ⟨some 1, some 0⟩
  else ⟨none, none⟩

/-- Demonstration payloads: waiter 1 wants READABLE (fiber 101), waiter 2
wants WRITABLE (fiber 102). -/
def demoPayload : Nat → Waiting := fun n =>
  if n = 1 then ⟨IO_EVENT_READABLE, 101⟩ else ⟨IO_EVENT_WRITABLE, 102⟩

/-- Epoll control operations passed to `epoll_ctl`. -/
inductive CtlOp where
  | add
  | mod
  | del
deriving DecidableEq, Repr

/-- Result of `IO_Event_Selector_EPoll_handle`: the walk outcome plus the
reconciliation `epoll_ctl` call, if one was issued, with the kernel mask it
passed. -/
structure EPollHandleResult where
  walk : WalkResult
  reconcile : Option (CtlOp × Nat)

/-- `IO_Event_Selector_EPoll_handle` (epoll.c lines 736-788): translate the
kernel flags to logical events, walk the waiter list, and if some fired
events were not matched by any resumed waiter, re-arm the descriptor at the
recorded mask (`epoll_descriptor->events`, the `armed` argument, which the
handler reads but never writes) with `EPOLL_CTL_MOD`, or `EPOLL_CTL_DEL`
when the recorded mask is zero. -/
def IO_Event_Selector_EPoll_handle (payload : Nat → Waiting) (effect : Nat → Store → Store)
    (armed flags s v fuel : Nat) (st : Store) : EPollHandleResult :=
  let io_event := events_from_epoll_flags flags
  let r := handle_walk payload effect io_event s v fuel st
  if io_event != r.matched then
    if armed != 0 then ⟨r, some (CtlOp.mod, epoll_flags_from_events armed)⟩
    else ⟨r, some (CtlOp.del, epoll_flags_from_events armed)⟩
  else ⟨r, none⟩

/-- Second demonstration store: sentinel 0 with the single waiter 1. -/
def demoStore1 : Store := fun i =>
  if i = 0 then ⟨some 1, some 1⟩
  else if i = 1 then ⟨some 0, some 0⟩
  else ⟨none, none⟩

/-! ## The arming phase of epoll `io_wait` (claims C4, C8, C10) -/

/-- Oracle for the `epoll_ctl` syscall result inside `io_wait`. -/
inductive CtlResult where
  | ok
  | eperm
  | fatal
deriving DecidableEq, Repr

/-- What the arming phase of `io_wait` did and how it left the state:
the `epoll_ctl` call made (if any) with its operation and kernel mask, the
recorded armed mask afterwards, the node store afterwards, whether the fiber
was pushed onto the ready queue and the selector yielded (the EPERM path),
the early-return value (if the call did not go on to suspend), and whether a
Ruby exception was raised. -/
structure IoWaitArm where
  ctl : Option (CtlOp × Nat)
  armed : Nat
  store : Store
  queuePushed : Bool
  yielded : Bool
  returned : Option Nat
  raised : Bool

/-- Arming phase of `IO_Event_Selector_EPoll_io_wait` (epoll.c lines
393-436), up to the suspension: if the recorded mask `armed` already covers
the request, skip the syscall; otherwise issue `EPOLL_CTL_MOD` when the
record was armed and `EPOLL_CTL_ADD` when not, with the widened kernel mask;
on success widen the recorded mask to `armed ||| req` and prepend the waiter
node at the head of the descriptor's list; on `EPERM` push the fiber to the
ready queue, yield, and return the requested events unchanged without
linking; on any other failure raise.  `returned = none` means the call went
on to suspend in the `rb_ensure` phase. -/
def IO_Event_Selector_EPoll_io_wait_arm (armed req : Nat) (ctl : CtlResult)
    (st : Store) (s nodeId : Nat) : IoWaitArm :=
  if armed &&& req != req then
    let op := if armed != 0 then CtlOp.mod else CtlOp.add
    let flags := epoll_flags_from_events (armed ||| req)
    match ctl with
    | .fatal => ⟨some (op, flags), armed, st, false, false, none, true⟩
    | .eperm => ⟨some (op, flags), armed, st, true, true, some req, false⟩
    | .ok => ⟨some (op, flags), armed ||| req, IO_Event_List_prepend st s nodeId,
        false, false, none, false⟩
  else
    ⟨none, armed, IO_Event_List_prepend st s nodeId, false, false, none, false⟩

/-! ## Post-suspension paths of the wait primitives (claim C5) -/

/-- How the host loop resumed a suspended waiter: with a kernel events
bitmap, with the falsy cancellation sentinel (`nil`/`Qfalse`), or by raising
an exception through the transfer. -/
inductive Resume where
  | events (flags : Nat)
  | cancelled
  | raised
deriving DecidableEq, Repr

/-- Kernel or host calls made by the post-suspension path of a wait
primitive. -/
inductive HostCall where
  | closeFd (fd : Int)
  | statusWait (pid : Int)
deriving DecidableEq, Repr

/-- Return of a wait primitive: `value none` is the falsy "no events" result
(`Qfalse`), `raised` an exception unwinding through it. -/
inductive WaitReturn where
  | value (v : Option Nat)
  | raised
deriving DecidableEq, Repr

/-- `io_wait_transfer` and `io_wait_ensure` on the epoll backend (epoll.c
lines 365-391, combined by the `rb_ensure` at line 435; `rb_ensure` itself is
host-runtime behaviour, modelled from the spec's "on every exit path, unlink
the waiter"): the ensure pops the waiter whatever happened; a falsy resume
value is returned as `Qfalse` with no translation and no kernel call; an
events bitmap is translated through `events_from_epoll_flags`. -/
def EPoll_io_wait_finish (resume : Resume) (st : Store) (nodeId : Nat) :
    WaitReturn × Store × List HostCall :=
  let st2 := IO_Event_List_pop st nodeId
  match resume with
  | .events flags => (.value (some (events_from_epoll_flags flags)), st2, [])
  | .cancelled => (.value none, st2, [])
  | .raised => (.raised, st2, [])

/-- `io_wait_transfer` and `io_wait_ensure` on the kqueue backend (kqueue.c
lines 360-381, combined by the `rb_ensure` at line 404): as for epoll but the
events resume value is passed through untranslated. -/
def KQueue_io_wait_finish (resume : Resume) (st : Store) (nodeId : Nat) :
    WaitReturn × Store × List HostCall :=
  let st2 := IO_Event_List_pop st nodeId
  match resume with
  | .events flags => (.value (some flags), st2, [])
  | .cancelled => (.value none, st2, [])
  | .raised => (.raised, st2, [])

/-- `process_wait_transfer` and `process_wait_ensure` on the epoll backend
(epoll.c lines 261-279, combined by the `rb_ensure` at line 326): after the
transfer returns — with an events bitmap OR the cancellation sentinel, which
the code does not examine — the process status is queried via the host's
wait helper; the ensure then closes the pidfd and pops the waiter.  On an
exception the status query is skipped but the ensure still runs. -/
def EPoll_process_wait_finish (resume : Resume) (status : Nat) (st : Store)
    (nodeId : Nat) (fd pid : Int) : WaitReturn × Store × List HostCall :=
  let st2 := IO_Event_List_pop st nodeId
  match resume with
  | .raised => (.raised, st2, [.closeFd fd])
  | _ => (.value (some status), st2, [.statusWait pid, .closeFd fd])

/-- `process_wait_transfer` and `process_wait_ensure` on the kqueue backend
(kqueue.c lines 313-329, combined by the `rb_ensure` at line 352): as for
epoll but with no process-handle descriptor to close. -/
def KQueue_process_wait_finish (resume : Resume) (status : Nat) (st : Store)
    (nodeId : Nat) (pid : Int) : WaitReturn × Store × List HostCall :=
  let st2 := IO_Event_List_pop st nodeId
  match resume with
  | .raised => (.raised, st2, [])
  | _ => (.value (some status), st2, [.statusWait pid])

/-! ## The buffered I/O loops (claims C6, C7)

The `read`/`write` syscalls are an oracle: a list of results consumed in
order.  The loops record the event masks they pass to `io_wait` on
retry-class errors. -/

/-- Errno classes relevant to the I/O loops. -/
inductive Errno where
  | eagain
  | eintr
  | other
deriving DecidableEq, Repr

/-- `IO_Event_try_again`.  Modelled from the spec: the helper lives in a
header not among the sources; §4.4/§7 class EAGAIN/EWOULDBLOCK (and EINTR on
platforms that classify it so) as retry-class. -/
def IO_Event_try_again : Errno → Bool
  | .eagain => true
  | .eintr => true
  | .other => false

/-- Numeric errno values for the result pair (Linux values). -/
def errnoCode : Errno → Nat
  | .eagain => 11
  | .eintr => 4
  | .other => 5

/-- One `read`/`write` syscall result: `ok n` is a return of `n ≥ 0`
(`ok 0` is EOF for read and a zero write), `err e` a `-1` return with
`errno = e`. -/
inductive RWResult where
  | ok (n : Nat)
  | err (e : Errno)
deriving DecidableEq, Repr

/-- Outcome of a buffered I/O loop: the `rb_fiber_scheduler_io_result` pair,
`raised` for a Ruby exception, or `pending` when the syscall oracle ran out
with the loop still running. -/
inductive LoopRet where
  | result (count : Int) (errno : Nat)
  | raised
  | pending
deriving DecidableEq, Repr

/-- A loop outcome together with the event masks passed to `io_wait`. -/
structure IoLoop where
  ret : LoopRet
  waits : List Nat
deriving DecidableEq, Repr

/-- `io_read_loop` on the epoll backend (epoll.c lines 454-483): on a
positive read advance `offset` and decrement `length`, breaking when the
read covered the remaining length; on a zero read (EOF) break; on a
retry-class errno with remaining length wait for READABLE and re-enter; on
any other error return `(-1, errno)`.  On a break it returns the final
`offset` — the starting offset plus the bytes transferred — paired with 0. -/
def EPoll_io_read_loop (size : Nat) : List RWResult → Nat → Nat → IoLoop
  | [], _, _ => ⟨.pending, []⟩
  | RWResult.ok n :: rest, length, offset =>
    if n > 0 then
      if n ≥ length then ⟨.result ((offset + n : Nat) : Int) 0, []⟩
      else EPoll_io_read_loop size rest (length - n) (offset + n)
    else ⟨.result ((offset : Nat) : Int) 0, []⟩
  | RWResult.err e :: rest, length, offset =>
    if length > 0 && IO_Event_try_again e then
      let res := EPoll_io_read_loop size rest length offset
      ⟨res.ret, IO_EVENT_READABLE :: res.waits⟩
    else ⟨.result (-1) (errnoCode e), []⟩

/-- `io_read_loop` on the kqueue backend (kqueue.c lines 423-463): the same
loop but guarded by `while (maximum_size)` with `maximum_size = size -
offset`, and it accumulates the transferred bytes in `total`, which is what
it returns paired with 0 on a break. -/
def KQueue_io_read_loop (size : Nat) : List RWResult → Nat → Nat → Nat → IoLoop
  | oracle, length, offset, total =>
    if size - offset = 0 then ⟨.result ((total : Nat) : Int) 0, []⟩
    else
      match oracle with
      | [] => ⟨.pending, []⟩
      | RWResult.ok n :: rest =>
        if n > 0 then
          if n ≥ length then ⟨.result ((total + n : Nat) : Int) 0, []⟩
          else KQueue_io_read_loop size rest (length - n) (offset + n) (total + n)
        else ⟨.result ((total : Nat) : Int) 0, []⟩
      | RWResult.err e :: rest =>
        if length > 0 && IO_Event_try_again e then
          let res := KQueue_io_read_loop size rest length offset total
          ⟨res.ret, IO_EVENT_READABLE :: res.waits⟩
        else ⟨.result (-1) (errnoCode e), []⟩

/-- The `while` loop of `io_write_loop` on the epoll backend (epoll.c lines
557-574): like the read loop but writing, waiting for WRITABLE on
retry-class errors, and returning the final `offset` on a break. -/
def EPoll_io_write_go (size : Nat) : List RWResult → Nat → Nat → IoLoop
  | [], _, _ => ⟨.pending, []⟩
  | RWResult.ok n :: rest, length, offset =>
    if n > 0 then
      if n ≥ length then ⟨.result ((offset + n : Nat) : Int) 0, []⟩
      else EPoll_io_write_go size rest (length - n) (offset + n)
    else ⟨.result ((offset : Nat) : Int) 0, []⟩
  | RWResult.err e :: rest, length, offset =>
    if length > 0 && IO_Event_try_again e then
      let res := EPoll_io_write_go size rest length offset
      ⟨res.ret, IO_EVENT_WRITABLE :: res.waits⟩
    else ⟨.result (-1) (errnoCode e), []⟩

/-- `io_write_loop` on the epoll backend (epoll.c lines 542-575): lengths
beyond the buffer size raise before the loop. -/
def EPoll_io_write_loop (size : Nat) (oracle : List RWResult) (length offset : Nat) : IoLoop :=
  if length > size then ⟨.raised, []⟩
  else EPoll_io_write_go size oracle length offset

/-- The `while (maximum_size)` loop of `io_write_loop` on the kqueue backend
(kqueue.c lines 543-565): accumulates `total` like the kqueue read loop, but
passes `IO_EVENT_READABLE` — not WRITABLE — to `io_wait` on retry-class
errors (kqueue.c line 558). -/
def KQueue_io_write_go (size : Nat) : List RWResult → Nat → Nat → Nat → IoLoop
  | oracle, length, offset, total =>
    if size - offset = 0 then ⟨.result ((total : Nat) : Int) 0, []⟩
    else
      match oracle with
      | [] => ⟨.pending, []⟩
      | RWResult.ok n :: rest =>
        if n > 0 then
          if n ≥ length then ⟨.result ((total + n : Nat) : Int) 0, []⟩
          else KQueue_io_write_go size rest (length - n) (offset + n) (total + n)
        else ⟨.result ((total : Nat) : Int) 0, []⟩
      | RWResult.err e :: rest =>
        if length > 0 && IO_Event_try_again e then
          let res := KQueue_io_write_go size rest length offset total
          ⟨res.ret, IO_EVENT_READABLE :: res.waits⟩
        else ⟨.result (-1) (errnoCode e), []⟩

/-- `io_write_loop` on the kqueue backend (kqueue.c lines 525-569). -/
def KQueue_io_write_loop (size : Nat) (oracle : List RWResult) (length offset total : Nat) :
    IoLoop :=
  if length > size then ⟨.raised, []⟩
  else KQueue_io_write_go size oracle length offset total

/-! ## The kqueue dispatch passes (claim C9) -/

/-- Result of `IO_Event_Selector_KQueue_handle`: the record's ready
accumulator afterwards and the walk outcome. -/
structure KQueueHandleResult where
  ready : Nat
  walk : WalkResult

/-- `IO_Event_Selector_KQueue_handle` (kqueue.c lines 698-734): read the
record's ready accumulator; return at once when it is zero, otherwise clear
it before resuming anyone and run the dispatch walk with the consumed
value.  The walk touches only the node store, never the accumulator. -/
def IO_Event_Selector_KQueue_handle (payload : Nat → Waiting) (effect : Nat → Store → Store)
    (s v fuel : Nat) (ready : Nat) (st : Store) : KQueueHandleResult :=
  let io_event := ready
  if io_event != 0 then
    ⟨0, handle_walk payload effect io_event s v fuel st⟩
  else
    ⟨ready, ⟨st, [], 0⟩⟩

/-- Kqueue filter kinds relevant to `events_from_kevent_filter`. -/
inductive KFilter where
  | read
  | write
  | proc
  | user
deriving DecidableEq, Repr

/-- `events_from_kevent_filter` (kqueue.c lines 293-305). -/
def events_from_kevent_filter : KFilter → Nat
  | .read => IO_EVENT_READABLE
  | .write => IO_EVENT_WRITABLE
  | .proc => IO_EVENT_EXIT
  | .user => 0

/-- A kernel event as the dispatch loops of `IO_Event_Selector_KQueue_select`
see it: the `udata` pointer (a descriptor-record id, or NULL) and the
filter. -/
structure KEvent where
  udata : Option Nat
  filter : KFilter
deriving DecidableEq, Repr

/-- The per-record ready accumulators, keyed by record id. -/
def ReadyMap : Type := Nat → Nat

/-- One step of the first dispatch pass of `IO_Event_Selector_KQueue_select`
(kqueue.c lines 780-785): if the event's `udata` points at a record, OR the
event's logical filter bit into that record's ready accumulator. -/
def KQueue_accumulate_step (rm : ReadyMap) (ev : KEvent) : ReadyMap :=
  match ev.udata with
  | some r => fun j => if j = r then rm r ||| events_from_kevent_filter ev.filter else rm j
  | none => rm

/-- First pass of the dispatch in `IO_Event_Selector_KQueue_select` (kqueue.c
lines 780-785): OR every event's logical filter bit into the ready
accumulator of the record its `udata` points to. -/
def KQueue_select_accumulate (events : List KEvent) (rm : ReadyMap) : ReadyMap :=
  events.foldl KQueue_accumulate_step rm

/-- All logical events the kernel reported for record `r` in one batch. -/
def recordFired (events : List KEvent) (r : Nat) : Nat :=
  events.foldl
    (fun acc ev =>
      if ev.udata = some r then acc ||| events_from_kevent_filter ev.filter else acc)
    0

/-- Second pass of the dispatch in `IO_Event_Selector_KQueue_select`
(kqueue.c lines 787-792), restricted to the events whose `udata` points at
one record `r` of interest (handles of other records read and write disjoint
descriptor state): call the handler once per kernel event naming `r`,
threading the record's accumulator, the node store and the resumption
transcript. -/
def KQueue_select_dispatch (payload : Nat → Waiting) (effect : Nat → Store → Store)
    (s v fuel r : Nat) :
    List KEvent → Nat → Store → List (Nat × Nat × Nat) → Nat × Store × List (Nat × Nat × Nat)
  | [], ready, st, log => (ready, st, log)
  | ev :: rest, ready, st, log =>
    match ev.udata with
    | some r2 =>
      if r2 = r then
        let h := IO_Event_Selector_KQueue_handle payload effect s v fuel ready st
        KQueue_select_dispatch payload effect s v fuel r rest h.ready h.walk.store
          (log ++ h.walk.log)
      else KQueue_select_dispatch payload effect s v fuel r rest ready st log
    | none => KQueue_select_dispatch payload effect s v fuel r rest ready st log

/-- Per-descriptor epoll state: the recorded armed mask
(`epoll_descriptor->events`) and the waiter-list node store. -/
structure EPollDescState where
  armed : Nat
  store : Store

/-- The operations of the epoll backend that touch one descriptor record:
an `io_wait` arming (with its `epoll_ctl` oracle and the waiter's node), a
waiter unlinking on any exit path of a wait (`io_wait_ensure` /
`process_wait_ensure`), and a dispatch of fired kernel flags with its
reconciliation. -/
inductive EPollOp where
  | ioWait (req : Nat) (ctl : CtlResult) (nodeId : Nat)
  | waiterExit (nodeId : Nat)
  | handle (flags : Nat) (removes : Nat → Bool) (fuel v : Nat)

/-- One step of the epoll descriptor state machine, assembled from the
embedded operations: `io_wait` may widen the recorded mask and the store,
unlinking pops a node, and the handler walks and reconciles without writing
the recorded mask (epoll.c lines 775-787 only read `epoll_descriptor->events`). -/
def EPoll_desc_step (payload : Nat → Waiting) (s : Nat) :
    EPollDescState → EPollOp → EPollDescState
  | d, .ioWait req ctl nodeId =>
    ⟨(IO_Event_Selector_EPoll_io_wait_arm d.armed req ctl d.store s nodeId).armed,
      (IO_Event_Selector_EPoll_io_wait_arm d.armed req ctl d.store s nodeId).store⟩
  | d, .waiterExit nodeId => ⟨d.armed, IO_Event_List_pop d.store nodeId⟩
  | d, .handle flags removes fuel v =>
    ⟨d.armed,
      (IO_Event_Selector_EPoll_handle payload (selfPop removes) d.armed flags s v
          fuel d.store).walk.store⟩

/-! ## Theorems -/

theorem bitsSub_iff_testBit (a b : Nat) :
    bitsSub a b ↔ ∀ i, a.testBit i = true → b.testBit i = true := by
  constructor
  · intro h i hi
    have := congrArg (fun n => Nat.testBit n i) h
    simp only [Nat.testBit_land] at this
    rcases hb : b.testBit i with _ | _
    · rw [hb] at this
      simp [hi] at this
    · rfl
  · intro h
    apply Nat.eq_of_testBit_eq
    intro i
    simp only [Nat.testBit_land]
    rcases ha : a.testBit i with _ | _
    · simp
    · simp [h i ha]

theorem bitsSub_lor (x y b : Nat) (hx : bitsSub x b) (hy : bitsSub y b) :
    bitsSub (x ||| y) b := by
  rw [bitsSub_iff_testBit] at hx hy ⊢
  intro i hi
  simp only [Nat.testBit_lor, Bool.or_eq_true] at hi
  rcases hi with h | h
  · exact hx i h
  · exact hy i h

theorem bitsSub_land_left (x y : Nat) : bitsSub (x &&& y) x := by
  rw [bitsSub_iff_testBit]
  intro i hi
  simp only [Nat.testBit_land, Bool.and_eq_true] at hi
  exact hi.1

theorem bitsSub_trans (a b c : Nat) (h1 : bitsSub a b) (h2 : bitsSub b c) : bitsSub a c := by
  rw [bitsSub_iff_testBit] at h1 h2 ⊢
  intro i hi
  exact h2 i (h1 i hi)

theorem bitsSub_lor_absorb (a b : Nat) : bitsSub a (a ||| b) := by
  rw [bitsSub_iff_testBit]
  intro i hi
  simp [Nat.testBit_lor, hi]

theorem bitsSub_ne_zero (a b : Nat) (h : bitsSub a b) (ha : a ≠ 0) : b ≠ 0 := by
  intro hb
  subst hb
  apply ha
  have hz : a &&& 0 = 0 := by
    apply Nat.eq_of_testBit_eq
    intro i
    simp [Nat.testBit_land]
  have : a &&& 0 = a := h
  rw [hz] at this
  exact this.symm

theorem bitsSub_zero (b : Nat) : bitsSub 0 b := by
  rw [bitsSub_iff_testBit]
  intro i hi
  simp at hi

/-- C3: on both backends the blocking kernel wait runs exactly when the
ready-queue flush processed nothing, the nonblocking poll returned zero
events, the host ready queue is still empty, and the duration is not zero;
in particular a zero duration always skips the blocking phase, and a `nil`
duration passes a NULL (infinite) timeout to the blocking wait, `-1` in the
millisecond fallback. -/
theorem select_blocking_phase_characterization
    (ready nbCount : Nat) (backendReady : Bool) (d : Duration) (bc : Nat) :
    ((EPoll_select_phases ready nbCount backendReady d bc).blockingPerformed
      = (ready == 0 && nbCount == 0 && !backendReady
          && !timeout_nonblocking (make_timeout d)))
    ∧ ((KQueue_select_phases ready nbCount backendReady d bc).blockingPerformed
      = (ready == 0 && nbCount == 0 && !backendReady
          && !timeout_nonblocking (make_timeout d)))
    ∧ (timeout_nonblocking (make_timeout d) = true →
        (EPoll_select_phases ready nbCount backendReady d bc).blockingPerformed = false
        ∧ (KQueue_select_phases ready nbCount backendReady d bc).blockingPerformed = false)
    ∧ (d = Duration.nil →
        (EPoll_select_phases ready nbCount backendReady d bc).blockingPerformed = true →
        (EPoll_select_phases ready nbCount backendReady d bc).blockingTimeout = none
        ∧ make_timeout_ms none = -1)
    ∧ (d = Duration.nil →
        (KQueue_select_phases ready nbCount backendReady d bc).blockingPerformed = true →
        (KQueue_select_phases ready nbCount backendReady d bc).blockingTimeout = none) := by
  unfold EPoll_select_phases KQueue_select_phases
  refine ⟨?_, ?_, ?_, ?_, ?_⟩ <;>
    rcases h : (ready == 0 && nbCount == 0 && !backendReady) with _ | _ <;>
      simp [h, make_timeout_ms] <;>
        rcases ht : timeout_nonblocking (make_timeout d) with _ | _ <;>
          simp [ht] <;>
            intro hd <;> subst hd <;> simp [make_timeout] at ht ⊢

/-- Witness for C3: with nothing ready, a `nil` duration performs an infinite
blocking wait; with duration `fixnum 0` the blocking phase is skipped. -/
theorem select_blocking_phase_characterization_witness :
    timeout_nonblocking (make_timeout (Duration.fixnum 0)) = true
    ∧ (EPoll_select_phases 0 0 false (Duration.fixnum 0) 7).blockingPerformed = false
    ∧ (EPoll_select_phases 0 0 false Duration.nil 7).blockingPerformed = true
    ∧ (EPoll_select_phases 0 0 false Duration.nil 7).blockingTimeout = none := by
  refine ⟨by decide, ?_, by decide, ?_⟩
  · exact ((select_blocking_phase_characterization 0 0 false (Duration.fixnum 0) 7).2.2.1
      (by decide)).1
  · exact (select_blocking_phase_characterization 0 0 false Duration.nil 7).2.2.2.1 rfl
      (by decide) |>.1

@[simp] theorem setNode_same (st : Store) (i : Nat) (n : Node) : setNode st i n i = n := by
  simp [setNode]

theorem setNode_other (st : Store) (i : Nat) (n : Node) (j : Nat) (h : j ≠ i) :
    setNode st i n j = st j := by
  simp [setNode, h]

theorem append_val_item (st : Store) (a n t : Nat) (hat : (st a).tail = some t)
    (hna : n ≠ a) (hnt : n ≠ t) :
    (IO_Event_List_append st a n) n = ⟨some a, some t⟩ := by
  simp [IO_Event_List_append, hat, setTail, setHead, setNode, hna, hnt]

theorem append_val_anchor (st : Store) (a n t : Nat) (hat : (st a).tail = some t)
    (hna : n ≠ a) (hta : t ≠ a) :
    (IO_Event_List_append st a n) a = ⟨(st a).head, some n⟩ := by
  simp [IO_Event_List_append, hat, setTail, setHead, setNode, hna, hta,
    Ne.symm hna, Ne.symm hta]

theorem append_val_next (st : Store) (a n t : Nat) (hat : (st a).tail = some t)
    (hta : t ≠ a) (htn : t ≠ n) :
    (IO_Event_List_append st a n) t = ⟨some n, (st t).tail⟩ := by
  simp [IO_Event_List_append, hat, setTail, setHead, setNode, hta, htn]

theorem append_val_other (st : Store) (a n t x : Nat) (hat : (st a).tail = some t)
    (hxa : x ≠ a) (hxn : x ≠ n) (hxt : x ≠ t) :
    (IO_Event_List_append st a n) x = st x := by
  simp [IO_Event_List_append, hat, setTail, setHead, setNode, hxa, hxn, hxt]

theorem pop_val_node (st : Store) (c h t : Nat) (hh : (st c).head = some h)
    (ht : (st c).tail = some t) :
    (IO_Event_List_pop st c) c = Node.unlinked := by
  simp [IO_Event_List_pop, hh, ht, setTail, setHead, setNode]

theorem pop_val_prev (st : Store) (c h t : Nat) (hh : (st c).head = some h)
    (ht : (st c).tail = some t) (hhc : h ≠ c) (hht : h ≠ t) :
    (IO_Event_List_pop st c) h = ⟨(st h).head, some t⟩ := by
  simp [IO_Event_List_pop, hh, ht, setTail, setHead, setNode, hhc, hht]

theorem pop_val_prev_eq (st : Store) (c h : Nat) (hh : (st c).head = some h)
    (ht : (st c).tail = some h) (hhc : h ≠ c) :
    (IO_Event_List_pop st c) h = ⟨some h, some h⟩ := by
  simp [IO_Event_List_pop, hh, ht, setTail, setHead, setNode, hhc]

theorem pop_val_next (st : Store) (c h t : Nat) (hh : (st c).head = some h)
    (ht : (st c).tail = some t) (htc : t ≠ c) (hth : t ≠ h) :
    (IO_Event_List_pop st c) t = ⟨some h, (st t).tail⟩ := by
  simp [IO_Event_List_pop, hh, ht, setTail, setHead, setNode, htc, hth]

theorem pop_val_other (st : Store) (c h t x : Nat) (hh : (st c).head = some h)
    (ht : (st c).tail = some t) (hxc : x ≠ c) (hxh : x ≠ h) (hxt : x ≠ t) :
    (IO_Event_List_pop st c) x = st x := by
  simp [IO_Event_List_pop, hh, ht, setTail, setHead, setNode, hxc, hxh, hxt]

theorem prepend_val (st : Store) (a n h : Nat) (hah : (st a).head = some h)
    (hna : n ≠ a) (hnh : n ≠ h) :
    (IO_Event_List_prepend st a n) n = ⟨some h, some a⟩ := by
  simp [IO_Event_List_prepend, hah, setTail, setHead, setNode, hna, hnh]

theorem segB_first (st : Store) (a : Nat) (ws : List Nat) (b : Nat)
    (h : segB st a ws b = true) : (st a).tail = some (ws.headD b) := by
  cases ws with
  | nil =>
    simp only [segB, Bool.and_eq_true, beq_iff_eq] at h
    simpa using h.1
  | cons n ws =>
    simp only [segB, Bool.and_eq_true, beq_iff_eq] at h
    simpa using h.1.1

theorem segB_cons (st : Store) (a n : Nat) (ws : List Nat) (b : Nat)
    (h : segB st a (n :: ws) b = true) :
    (st a).tail = some n ∧ (st n).head = some a ∧ segB st n ws b = true := by
  simp only [segB, Bool.and_eq_true, beq_iff_eq] at h
  exact ⟨h.1.1, h.1.2, h.2⟩

theorem segB_nil (st : Store) (a b : Nat) (h : segB st a [] b = true) :
    (st a).tail = some b ∧ (st b).head = some a := by
  simp only [segB, Bool.and_eq_true, beq_iff_eq] at h
  exact h

theorem segB_frame (st st2 : Store) (a : Nat) (ws : List Nat) (b : Nat)
    (hseg : segB st a ws b = true)
    (ha : (st2 a).tail = (st a).tail)
    (hws : ∀ x ∈ ws, st2 x = st x)
    (hb : (st2 b).head = (st b).head) :
    segB st2 a ws b = true := by
  induction ws generalizing a with
  | nil =>
    obtain ⟨h1, h2⟩ := segB_nil st a b hseg
    simp only [segB, Bool.and_eq_true, beq_iff_eq]
    exact ⟨by rw [ha, h1], by rw [hb, h2]⟩
  | cons n ws ih =>
    obtain ⟨h1, h2, h3⟩ := segB_cons st a n ws b hseg
    simp only [segB, Bool.and_eq_true, beq_iff_eq]
    refine ⟨⟨by rw [ha, h1], by rw [hws n (by simp), h2]⟩, ?_⟩
    exact ih n h3 (by rw [hws n (by simp)]) (fun x hx => hws x (by simp [hx]))

theorem iter_removes (st : Store) (p n t v : Nat)
    (hnh : (st n).head = some p) (hnt : (st n).tail = some t)
    (hnp : n ≠ p) (hnt2 : n ≠ t) (hnv : n ≠ v)
    (hvp : v ≠ p) (hvt : v ≠ t) (hpt : p ≠ t) :
    ((IO_Event_List_pop (IO_Event_List_append st n v) n) v).tail = some t
    ∧ ((IO_Event_List_pop (IO_Event_List_pop (IO_Event_List_append st n v) n) v) p).tail = some t
    ∧ ((IO_Event_List_pop (IO_Event_List_pop (IO_Event_List_append st n v) n) v) p).head = (st p).head
    ∧ ((IO_Event_List_pop (IO_Event_List_pop (IO_Event_List_append st n v) n) v) t).head = some p
    ∧ ((IO_Event_List_pop (IO_Event_List_pop (IO_Event_List_append st n v) n) v) t).tail = (st t).tail
    ∧ ∀ x, x ≠ p → x ≠ t → x ≠ n → x ≠ v →
        (IO_Event_List_pop (IO_Event_List_pop (IO_Event_List_append st n v) n) v) x = st x := by
  have hAv : (IO_Event_List_append st n v) v = ⟨some n, some t⟩ :=
    append_val_item st n v t hnt (Ne.symm hnv) hvt
  have hAn : (IO_Event_List_append st n v) n = ⟨(st n).head, some v⟩ :=
    append_val_anchor st n v t hnt (Ne.symm hnv) (Ne.symm hnt2)
  have hAt : (IO_Event_List_append st n v) t = ⟨some v, (st t).tail⟩ :=
    append_val_next st n v t hnt (Ne.symm hnt2) (Ne.symm hvt)
  have hAp : (IO_Event_List_append st n v) p = st p :=
    append_val_other st n v t p hnt (Ne.symm hnp) (Ne.symm hvp) hpt
  have hh1 : ((IO_Event_List_append st n v) n).head = some p := by rw [hAn]; exact hnh
  have ht1 : ((IO_Event_List_append st n v) n).tail = some v := by rw [hAn]
  have hBv : (IO_Event_List_pop (IO_Event_List_append st n v) n) v = ⟨some p, some t⟩ := by
    rw [pop_val_next _ n p v hh1 ht1 (Ne.symm hnv) hvp, hAv]
  have hBp : (IO_Event_List_pop (IO_Event_List_append st n v) n) p = ⟨(st p).head, some v⟩ := by
    rw [pop_val_prev _ n p v hh1 ht1 (Ne.symm hnp) (fun h => hvp h.symm), hAp]
  have hBt : (IO_Event_List_pop (IO_Event_List_append st n v) n) t = ⟨some v, (st t).tail⟩ := by
    rw [pop_val_other _ n p v t hh1 ht1 (Ne.symm hnt2) (Ne.symm hpt) (Ne.symm hvt), hAt]
  have hh2 : ((IO_Event_List_pop (IO_Event_List_append st n v) n) v).head = some p := by rw [hBv]
  have ht2 : ((IO_Event_List_pop (IO_Event_List_append st n v) n) v).tail = some t := by rw [hBv]
  refine ⟨ht2, ?_, ?_, ?_, ?_, ?_⟩
  · rw [pop_val_prev _ v p t hh2 ht2 (Ne.symm hvp) hpt, hBp]
  · rw [pop_val_prev _ v p t hh2 ht2 (Ne.symm hvp) hpt, hBp]
  · rw [pop_val_next _ v p t hh2 ht2 (Ne.symm hvt) (Ne.symm hpt), hBt]
  · rw [pop_val_next _ v p t hh2 ht2 (Ne.symm hvt) (Ne.symm hpt), hBt]
  · intro x hxp hxt hxn hxv
    rw [pop_val_other _ v p t x hh2 ht2 hxv hxp hxt]
    rw [pop_val_other _ n p v x hh1 ht1 hxn hxp hxv]
    exact append_val_other st n v t x hnt hxn hxv hxt

theorem iter_removes_last (st : Store) (p n v : Nat)
    (hnh : (st n).head = some p) (hnt : (st n).tail = some p)
    (hnp : n ≠ p) (hnv : n ≠ v) (hvp : v ≠ p) :
    ((IO_Event_List_pop (IO_Event_List_append st n v) n) v).tail = some p
    ∧ ((IO_Event_List_pop (IO_Event_List_pop (IO_Event_List_append st n v) n) v) p).tail = some p
    ∧ ((IO_Event_List_pop (IO_Event_List_pop (IO_Event_List_append st n v) n) v) p).head = some p := by
  have hAv : (IO_Event_List_append st n v) v = ⟨some n, some p⟩ :=
    append_val_item st n v p hnt (Ne.symm hnv) hvp
  have hAn : (IO_Event_List_append st n v) n = ⟨(st n).head, some v⟩ :=
    append_val_anchor st n v p hnt (Ne.symm hnv) (Ne.symm hnp)
  have hAp : (IO_Event_List_append st n v) p = ⟨some v, (st p).tail⟩ :=
    append_val_next st n v p hnt (Ne.symm hnp) (Ne.symm hvp)
  have hh1 : ((IO_Event_List_append st n v) n).head = some p := by rw [hAn]; exact hnh
  have ht1 : ((IO_Event_List_append st n v) n).tail = some v := by rw [hAn]
  have hBv : (IO_Event_List_pop (IO_Event_List_append st n v) n) v = ⟨some p, some p⟩ := by
    rw [pop_val_next _ n p v hh1 ht1 (Ne.symm hnv) hvp, hAv]
  have hh2 : ((IO_Event_List_pop (IO_Event_List_append st n v) n) v).head = some p := by rw [hBv]
  have ht2 : ((IO_Event_List_pop (IO_Event_List_append st n v) n) v).tail = some p := by rw [hBv]
  have hCp : (IO_Event_List_pop (IO_Event_List_pop (IO_Event_List_append st n v) n) v) p
      = ⟨some p, some p⟩ :=
    pop_val_prev_eq _ v p hh2 ht2 (Ne.symm hvp)
  exact ⟨ht2, by rw [hCp], by rw [hCp]⟩

theorem iter_keep (st : Store) (n t v : Nat)
    (hnt : (st n).tail = some t)
    (hnt2 : n ≠ t) (hnv : n ≠ v) (hvt : v ≠ t) :
    ((IO_Event_List_append st n v) v).tail = some t
    ∧ ((IO_Event_List_pop (IO_Event_List_append st n v) v) n).tail = some t
    ∧ ((IO_Event_List_pop (IO_Event_List_append st n v) v) n).head = (st n).head
    ∧ ((IO_Event_List_pop (IO_Event_List_append st n v) v) t).head = some n
    ∧ ((IO_Event_List_pop (IO_Event_List_append st n v) v) t).tail = (st t).tail
    ∧ ∀ x, x ≠ n → x ≠ t → x ≠ v →
        (IO_Event_List_pop (IO_Event_List_append st n v) v) x = st x := by
  have hAv : (IO_Event_List_append st n v) v = ⟨some n, some t⟩ :=
    append_val_item st n v t hnt (Ne.symm hnv) hvt
  have hAn : (IO_Event_List_append st n v) n = ⟨(st n).head, some v⟩ :=
    append_val_anchor st n v t hnt (Ne.symm hnv) (Ne.symm hnt2)
  have hAt : (IO_Event_List_append st n v) t = ⟨some v, (st t).tail⟩ :=
    append_val_next st n v t hnt (Ne.symm hnt2) (Ne.symm hvt)
  have hh1 : ((IO_Event_List_append st n v) v).head = some n := by rw [hAv]
  have ht1 : ((IO_Event_List_append st n v) v).tail = some t := by rw [hAv]
  refine ⟨ht1, ?_, ?_, ?_, ?_, ?_⟩
  · rw [pop_val_prev _ v n t hh1 ht1 hnv hnt2, hAn]
  · rw [pop_val_prev _ v n t hh1 ht1 hnv hnt2, hAn]
  · rw [pop_val_next _ v n t hh1 ht1 (Ne.symm hvt) (Ne.symm hnt2), hAt]
  · rw [pop_val_next _ v n t hh1 ht1 (Ne.symm hvt) (Ne.symm hnt2), hAt]
  · intro x hxn hxt hxv
    rw [pop_val_other _ v n t x hh1 ht1 hxv hxn hxt]
    exact append_val_other st n v t x hnt hxn hxv hxt

theorem handle_walk_loop_succ (payload : Nat → Waiting) (effect : Nat → Store → Store)
    (ioEvent listId savedId fuel : Nat) (st : Store) (node matched : Nat) :
    handle_walk_loop payload effect ioEvent listId savedId (fuel + 1) st node matched
      = if node = listId then ⟨st, [], matched⟩
        else
          let w := payload node
          let matching := w.events &&& ioEvent
          if matching != 0 then
            let st1 := IO_Event_List_append st node savedId
            let st2 := effect node st1
            match (st2 savedId).tail with
            | some node1 =>
              let st3 := IO_Event_List_pop st2 savedId
              let r := handle_walk_loop payload effect ioEvent listId savedId fuel st3 node1
                (matched ||| matching)
              ⟨r.store, (node, w.fiber, matching) :: r.log, r.matched⟩
            | none => ⟨st2, [(node, w.fiber, matching)], matched ||| matching⟩
          else
            match (st node).tail with
            | some node1 =>
              handle_walk_loop payload effect ioEvent listId savedId fuel st node1 matched
            | none => ⟨st, [], matched⟩ := rfl

theorem handle_walk_loop_spec (payload : Nat → Waiting) (removes : Nat → Bool)
    (ioEvent s v : Nat) (ws : List Nat) :
    ∀ (p : Nat) (st : Store) (m0 : Nat),
      segB st p ws s = true →
      s ∉ ws → v ∉ ws → p ∉ ws → ws.Nodup → v ≠ s → v ≠ p →
      (handle_walk_loop payload (selfPop removes) ioEvent s v (ws.length + 1) st
          (ws.headD s) m0).log
        = walkLog payload ioEvent ws
      ∧ (handle_walk_loop payload (selfPop removes) ioEvent s v (ws.length + 1) st
          (ws.headD s) m0).matched
        = walkMatched payload ioEvent ws m0 := by
  induction ws with
  | nil =>
    intro p st m0 _ _ _ _ _ _ _
    simp [handle_walk_loop, walkLog, walkMatched]
  | cons n rest ih =>
    intro p st m0 hseg hs hv hp hnd hvs hvp
    obtain ⟨hpn, hnhd, hrest⟩ := segB_cons st p n rest s hseg
    have hnt : (st n).tail = some (rest.headD s) := segB_first st n rest s hrest
    have hns : ¬(n = s) := fun h => hs (by simp [h])
    have hvn : v ≠ n := fun h => hv (by simp [h])
    have hvrest : v ∉ rest := fun h => hv (by simp [h])
    have hsrest : s ∉ rest := fun h => hs (by simp [h])
    have hpn2 : p ≠ n := fun h => hp (by simp [h])
    have hprest : p ∉ rest := fun h => hp (by simp [h])
    have hnrest : n ∉ rest := (List.nodup_cons.mp hnd).1
    have hndrest : rest.Nodup := (List.nodup_cons.mp hnd).2
    have htmem : rest.headD s = s ∨ rest.headD s ∈ rest := by
      cases rest with
      | nil => exact Or.inl rfl
      | cons r rest2 => exact Or.inr (by simp)
    have hnt2 : n ≠ rest.headD s := by
      rcases htmem with h | h
      · rw [h]; exact fun hh => hns hh
      · exact fun hh => hnrest (hh ▸ h)
    have hvt : v ≠ rest.headD s := by
      rcases htmem with h | h
      · rw [h]; exact hvs
      · exact fun hh => hvrest (hh ▸ h)
    simp only [List.headD_cons, List.length_cons]
    rw [handle_walk_loop_succ, if_neg hns]
    dsimp only
    by_cases hm : (payload n).events &&& ioEvent = 0
    · -- mask does not intersect the fired events: skipped in place
      rw [if_neg (by simp [hm])]
      simp only [hnt]
      have IH := ih n st m0 hrest hsrest hvrest hnrest hndrest hvs hvn
      refine ⟨?_, ?_⟩
      · rw [IH.1]
        simp [walkLog, List.filterMap_cons, hm]
      · rw [IH.2]
        simp [walkMatched, hm]
    · -- mask intersects the fired events: splice, transfer, continue
      rw [if_pos (by simp [hm])]
      by_cases hrem : removes n = true
      · -- the resumed fiber popped its own node
        have hsp2 : ∀ stx : Store, selfPop removes n stx = IO_Event_List_pop stx n :=
          fun stx => by simp [selfPop, hrem]
        simp only [hsp2]
        by_cases hpteq : p = rest.headD s
        · -- the last waiter of a one-element segment: previous node is the sentinel
          cases rest with
          | cons r rest2 => exact absurd (hpteq ▸ List.mem_cons_self r rest2) hprest
          | nil =>
            simp only [List.headD_nil] at hpteq hnt hnt2 hvt
            rw [← hpteq] at hnt
            obtain ⟨c1, c2, c3⟩ :=
              iter_removes_last st p n v hnhd hnt (fun h => hpn2 h.symm)
                (fun h => hvn h.symm) hvp
            simp only [c1]
            rw [hpteq]
            have hseg3 : segB (IO_Event_List_pop
                (IO_Event_List_pop (IO_Event_List_append st n v) n) v) s [] s = true := by
              simp only [segB, Bool.and_eq_true, beq_iff_eq]
              rw [← hpteq]
              exact ⟨c2, c3⟩
            have IH := ih s _ (m0 ||| ((payload n).events &&& ioEvent)) hseg3
              (by simp) (by simp) (by simp) (by simp) hvs hvs
            simp only [List.headD_nil, List.length_nil] at IH
            refine ⟨?_, ?_⟩
            · dsimp only
              simp only [List.length_nil]
              rw [IH.1]
              simp [walkLog, List.filterMap_cons, hm]
            · dsimp only
              simp only [List.length_nil]
              rw [IH.2]
              simp [walkMatched]
        · -- generic iteration: previous node distinct from the next node
          obtain ⟨c1, c2, c3, c4, c5, c6⟩ :=
            iter_removes st p n (rest.headD s) v hnhd hnt (fun h => hpn2 h.symm) hnt2
              (fun h => hvn h.symm) hvp hvt hpteq
          simp only [c1]
          have hseg3 : segB (IO_Event_List_pop
              (IO_Event_List_pop (IO_Event_List_append st n v) n) v) p rest s = true := by
            cases rest with
            | nil =>
              simp only [List.headD_nil] at c2 c4
              simp only [segB, Bool.and_eq_true, beq_iff_eq]
              exact ⟨c2, c4⟩
            | cons r rest2 =>
              simp only [List.headD_cons] at c2 c4 c5 c6
              obtain ⟨_, _, hrest2⟩ := segB_cons st n r rest2 s hrest
              have hsr : s ≠ r := fun h => hsrest (by simp [h])
              have hrrest2 : r ∉ rest2 := (List.nodup_cons.mp hndrest).1
              simp only [segB, Bool.and_eq_true, beq_iff_eq]
              refine ⟨⟨c2, c4⟩, ?_⟩
              apply segB_frame st _ r rest2 s hrest2
              · rw [c5]
              · intro x hx
                have hxp : x ≠ p := fun h => hprest (h ▸ (by simp [hx]))
                have hxr : x ≠ r := fun h => hrrest2 (h ▸ hx)
                have hxn : x ≠ n := fun h => hnrest (h ▸ (by simp [hx]))
                have hxv : x ≠ v := fun h => hvrest (h ▸ (by simp [hx]))
                exact c6 x hxp hxr hxn hxv
              · by_cases hsp : s = p
                · rw [hsp]
                  exact c3
                · exact congrArg Node.head
                    (c6 s hsp hsr (fun h => hns h.symm) (fun h => hvs h.symm))
          have IH := ih p _ (m0 ||| ((payload n).events &&& ioEvent)) hseg3
            hsrest hvrest hprest hndrest hvs hvp
          refine ⟨?_, ?_⟩
          · dsimp only
            rw [IH.1]
            simp [walkLog, List.filterMap_cons, hm]
          · dsimp only
            rw [IH.2]
            simp [walkMatched]
      · -- the resumed fiber left the list alone
        have hsp2 : ∀ stx : Store, selfPop removes n stx = stx :=
          fun stx => by simp [selfPop, hrem]
        simp only [hsp2]
        obtain ⟨d1, d2, d3, d4, d5, d6⟩ :=
          iter_keep st n (rest.headD s) v hnt hnt2 (fun h => hvn h.symm) hvt
        simp only [d1]
        have hseg3 : segB (IO_Event_List_pop (IO_Event_List_append st n v) v) n rest s
            = true := by
          cases rest with
          | nil =>
            simp only [List.headD_nil] at d2 d4
            simp only [segB, Bool.and_eq_true, beq_iff_eq]
            exact ⟨d2, d4⟩
          | cons r rest2 =>
            simp only [List.headD_cons] at d2 d4 d5 d6
            obtain ⟨_, _, hrest2⟩ := segB_cons st n r rest2 s hrest
            have hsr : s ≠ r := fun h => hsrest (by simp [h])
            have hrrest2 : r ∉ rest2 := (List.nodup_cons.mp hndrest).1
            simp only [segB, Bool.and_eq_true, beq_iff_eq]
            refine ⟨⟨d2, d4⟩, ?_⟩
            apply segB_frame st _ r rest2 s hrest2
            · rw [d5]
            · intro x hx
              have hxn : x ≠ n := fun h => hnrest (h ▸ (by simp [hx]))
              have hxr : x ≠ r := fun h => hrrest2 (h ▸ hx)
              have hxv : x ≠ v := fun h => hvrest (h ▸ (by simp [hx]))
              exact d6 x hxn hxr hxv
            · exact congrArg Node.head
                (d6 s (fun h => hns h.symm) hsr (fun h => hvs h.symm))
        have IH := ih n _ (m0 ||| ((payload n).events &&& ioEvent)) hseg3
          hsrest hvrest hnrest hndrest hvs hvn
        refine ⟨?_, ?_⟩
        · dsimp only
          rw [IH.1]
          simp [walkLog, List.filterMap_cons, hm]
        · dsimp only
          rw [IH.2]
          simp [walkMatched]

theorem handle_walk_spec (payload : Nat → Waiting) (removes : Nat → Bool)
    (ioEvent s v : Nat) (ws : List Nat) (st : Store)
    (hseg : segB st s ws s = true)
    (hs : s ∉ ws) (hv : v ∉ ws) (hnd : ws.Nodup) (hvs : v ≠ s) :
    (handle_walk payload (selfPop removes) ioEvent s v (ws.length + 1) st).log
      = walkLog payload ioEvent ws
    ∧ (handle_walk payload (selfPop removes) ioEvent s v (ws.length + 1) st).matched
      = walkMatched payload ioEvent ws 0 := by
  have h1 := segB_first st s ws s hseg
  simp only [handle_walk, h1]
  exact handle_walk_loop_spec payload removes ioEvent s v ws s st 0 hseg hs hv hs hnd hvs hvs

theorem walkLog_nodes (payload : Nat → Waiting) (ioEvent : Nat) (ws : List Nat) :
    (walkLog payload ioEvent ws).map (fun e => e.1)
      = ws.filter (fun n => (payload n).events &&& ioEvent != 0) := by
  induction ws with
  | nil => simp [walkLog]
  | cons n rest ih =>
    by_cases h : (payload n).events &&& ioEvent = 0
    · simp only [walkLog, List.filterMap_cons] at ih ⊢
      rw [if_neg (by simp [h])]
      rw [List.filter_cons_of_neg (by simp [h])]
      exact ih
    · simp only [walkLog, List.filterMap_cons] at ih ⊢
      rw [if_pos (by simp [h])]
      rw [List.filter_cons_of_pos (by simp [h])]
      simp only [List.map_cons]
      rw [ih]

theorem walkLog_mem (payload : Nat → Waiting) (ioEvent : Nat) (ws : List Nat)
    (e : Nat × Nat × Nat) (he : e ∈ walkLog payload ioEvent ws) :
    e.1 ∈ ws ∧ e.2.1 = (payload e.1).fiber ∧ e.2.2 = (payload e.1).events &&& ioEvent
    ∧ (payload e.1).events &&& ioEvent ≠ 0 := by
  simp only [walkLog, List.mem_filterMap] at he
  obtain ⟨n, hn, hif⟩ := he
  by_cases h : (payload n).events &&& ioEvent = 0
  · rw [if_neg (by simp [h])] at hif
    cases hif
  · rw [if_pos (by simp [h])] at hif
    cases hif
    exact ⟨hn, rfl, rfl, h⟩

theorem walkMatched_cons (payload : Nat → Waiting) (ioEvent n m0 : Nat) (rest : List Nat) :
    walkMatched payload ioEvent (n :: rest) m0
      = walkMatched payload ioEvent rest (m0 ||| ((payload n).events &&& ioEvent)) := rfl

theorem walkMatched_sub (payload : Nat → Waiting) (ioEvent armed : Nat) (ws : List Nat) :
    ∀ m0, bitsSub m0 armed →
      (∀ n ∈ ws, bitsSub (payload n).events armed) →
      bitsSub (walkMatched payload ioEvent ws m0) armed := by
  induction ws with
  | nil =>
    intro m0 h _
    simpa [walkMatched] using h
  | cons n rest ih =>
    intro m0 hm0 hws
    rw [walkMatched_cons]
    apply ih
    · exact bitsSub_lor _ _ _ hm0
        (bitsSub_trans _ _ _ (bitsSub_land_left _ _) (hws n (by simp)))
    · intro x hx
      exact hws x (by simp [hx])

/-- C1: the dispatch walk of both handlers (`IO_Event_Selector_EPoll_handle`
and `IO_Event_Selector_KQueue_handle` share this loop) starts at the list's
tail and, for the waiters present at dispatch, resumes exactly those whose
requested mask intersects the fired events `ioEvent` — each exactly once, in
walk order, with argument the intersection of its mask and `ioEvent`, which
is nonempty and a subset of its mask — skips the others, and the spliced
`saved` cursor survives each resumed fiber popping its own node or leaving
the list alone. -/
theorem dispatch_walk_correct (payload : Nat → Waiting) (removes : Nat → Bool)
    (ioEvent s v : Nat) (ws : List Nat) (st : Store)
    (hseg : segB st s ws s = true)
    (hs : s ∉ ws) (hv : v ∉ ws) (hnd : ws.Nodup) (hvs : v ≠ s) :
    (handle_walk payload (selfPop removes) ioEvent s v (ws.length + 1) st).log
        = walkLog payload ioEvent ws
    ∧ (handle_walk payload (selfPop removes) ioEvent s v (ws.length + 1) st).log.map
          (fun e => e.1)
        = ws.filter (fun n => (payload n).events &&& ioEvent != 0)
    ∧ ((handle_walk payload (selfPop removes) ioEvent s v (ws.length + 1) st).log.map
          (fun e => e.1)).Nodup
    ∧ (∀ e ∈ (handle_walk payload (selfPop removes) ioEvent s v (ws.length + 1) st).log,
        e.2.1 = (payload e.1).fiber
        ∧ e.2.2 = (payload e.1).events &&& ioEvent
        ∧ e.2.2 ≠ 0
        ∧ e.2.2 &&& (payload e.1).events = e.2.2)
    ∧ (∀ n ∈ ws, (payload n).events &&& ioEvent = 0 →
        ∀ e ∈ (handle_walk payload (selfPop removes) ioEvent s v (ws.length + 1) st).log,
          e.1 ≠ n) := by
  obtain ⟨hlog, _⟩ := handle_walk_spec payload removes ioEvent s v ws st hseg hs hv hnd hvs
  refine ⟨hlog, ?_, ?_, ?_, ?_⟩
  · rw [hlog, walkLog_nodes]
  · rw [hlog, walkLog_nodes]
    exact hnd.filter _
  · intro e he
    rw [hlog] at he
    obtain ⟨_, hf, hm, hnz⟩ := walkLog_mem _ _ _ e he
    refine ⟨hf, hm, by rw [hm]; exact hnz, ?_⟩
    rw [hm]
    exact bitsSub_land_left (payload e.1).events ioEvent
  · intro n _ hzero e he
    rw [hlog] at he
    obtain ⟨_, _, _, hnz⟩ := walkLog_mem _ _ _ e he
    intro hEq
    rw [hEq] at hnz
    exact hnz hzero

/-- Witness for C1: on the two-waiter demonstration ring with READABLE fired,
the hypotheses hold and the walk resumes exactly waiter 1. -/
theorem dispatch_walk_correct_witness :
    segB demoStore 0 [1, 2] 0 = true
    ∧ (0 : Nat) ∉ [1, 2] ∧ (9 : Nat) ∉ [1, 2] ∧ ([1, 2] : List Nat).Nodup ∧ (9 : Nat) ≠ 0
    ∧ (handle_walk demoPayload (selfPop fun _ => true) IO_EVENT_READABLE 0 9
        (([1, 2] : List Nat).length + 1) demoStore).log
      = walkLog demoPayload IO_EVENT_READABLE [1, 2]
    ∧ walkLog demoPayload IO_EVENT_READABLE [1, 2] = [(1, 101, 1)] := by
  refine ⟨by decide, by decide, by decide, by decide, by decide, ?_, by decide⟩
  exact (dispatch_walk_correct demoPayload (fun _ => true) IO_EVENT_READABLE 0 9 [1, 2]
    demoStore (by decide) (by decide) (by decide) (by decide) (by decide)).1

/-- C2: after a dispatch whose fired (logical) events are not a subset of the
descriptor's recorded armed mask — with every linked waiter's mask inside
the armed mask, as `io_wait` maintains — the epoll handler issues an
`EPOLL_CTL_MOD` at the recorded aggregate mask, or an `EPOLL_CTL_DEL` when
that mask is empty. -/
theorem epoll_reconcile_on_unarmed_fired (payload : Nat → Waiting) (removes : Nat → Bool)
    (armed flags s v : Nat) (ws : List Nat) (st : Store)
    (hseg : segB st s ws s = true)
    (hs : s ∉ ws) (hv : v ∉ ws) (hnd : ws.Nodup) (hvs : v ≠ s)
    (hwaiters : ∀ n ∈ ws, bitsSub (payload n).events armed)
    (hnotsub : ¬ bitsSub (events_from_epoll_flags flags) armed) :
    (IO_Event_Selector_EPoll_handle payload (selfPop removes) armed flags s v
        (ws.length + 1) st).reconcile
      = some (if armed ≠ 0 then CtlOp.mod else CtlOp.del, epoll_flags_from_events armed) := by
  have hw := handle_walk_spec payload removes (events_from_epoll_flags flags) s v ws st
    hseg hs hv hnd hvs
  have hmsub : bitsSub (handle_walk payload (selfPop removes)
      (events_from_epoll_flags flags) s v (ws.length + 1) st).matched armed := by
    rw [hw.2]
    exact walkMatched_sub payload (events_from_epoll_flags flags) armed ws 0
      (bitsSub_zero armed) hwaiters
  have hne : events_from_epoll_flags flags
      ≠ (handle_walk payload (selfPop removes) (events_from_epoll_flags flags) s v
          (ws.length + 1) st).matched := by
    intro h
    apply hnotsub
    rw [h]
    exact hmsub
  unfold IO_Event_Selector_EPoll_handle
  dsimp only
  rw [if_pos (by simpa [bne_iff_ne] using hne)]
  by_cases harmed : armed = 0
  · rw [if_neg (by simp [harmed])]
    simp [harmed]
  · rw [if_pos (by simpa [bne_iff_ne] using harmed)]
    simp [harmed]

/-- Witness for C2: one READABLE waiter, armed mask = READABLE, and the
kernel fires EPOLLOUT (translating to WRITABLE, not below the armed mask):
the handler issues `EPOLL_CTL_MOD` at the recorded mask. -/
theorem epoll_reconcile_on_unarmed_fired_witness :
    segB demoStore1 0 [1] 0 = true
    ∧ (∀ n ∈ ([1] : List Nat), bitsSub (demoPayload n).events IO_EVENT_READABLE)
    ∧ ¬ bitsSub (events_from_epoll_flags EPOLLOUT) IO_EVENT_READABLE
    ∧ (IO_Event_Selector_EPoll_handle demoPayload (selfPop fun _ => true)
        IO_EVENT_READABLE EPOLLOUT 0 9 (([1] : List Nat).length + 1) demoStore1).reconcile
      = some (if IO_EVENT_READABLE ≠ 0 then CtlOp.mod else CtlOp.del,
          epoll_flags_from_events IO_EVENT_READABLE) := by
  refine ⟨by decide, by decide, by decide, ?_⟩
  exact epoll_reconcile_on_unarmed_fired demoPayload (fun _ => true) IO_EVENT_READABLE
    EPOLLOUT 0 9 [1] demoStore1 (by decide) (by decide) (by decide) (by decide) (by decide)
    (by decide) (by decide)

/-- C4: epoll `io_wait` skips the syscall when the recorded mask covers the
request and still links the waiter at the list head; otherwise it issues
`EPOLL_CTL_MOD` when the record was armed and `EPOLL_CTL_ADD` when not, and
on success the recorded mask becomes `armed ||| req` and the waiter is
prepended at the head. -/
theorem epoll_io_wait_arming (armed req : Nat) (ctl : CtlResult) (st : Store) (s nodeId : Nat) :
    (armed &&& req = req →
      (IO_Event_Selector_EPoll_io_wait_arm armed req ctl st s nodeId).ctl = none
      ∧ (IO_Event_Selector_EPoll_io_wait_arm armed req ctl st s nodeId).armed = armed
      ∧ (IO_Event_Selector_EPoll_io_wait_arm armed req ctl st s nodeId).store
          = IO_Event_List_prepend st s nodeId
      ∧ (IO_Event_Selector_EPoll_io_wait_arm armed req ctl st s nodeId).raised = false)
    ∧ (armed &&& req ≠ req → ctl = CtlResult.ok →
      (IO_Event_Selector_EPoll_io_wait_arm armed req ctl st s nodeId).ctl
          = some (if armed ≠ 0 then CtlOp.mod else CtlOp.add,
              epoll_flags_from_events (armed ||| req))
      ∧ (IO_Event_Selector_EPoll_io_wait_arm armed req ctl st s nodeId).armed = armed ||| req
      ∧ (IO_Event_Selector_EPoll_io_wait_arm armed req ctl st s nodeId).store
          = IO_Event_List_prepend st s nodeId
      ∧ (IO_Event_Selector_EPoll_io_wait_arm armed req ctl st s nodeId).raised = false) := by
  constructor
  · intro hcov
    unfold IO_Event_Selector_EPoll_io_wait_arm
    rw [if_neg (by simp [hcov])]
    exact ⟨rfl, rfl, rfl, rfl⟩
  · intro hcov hok
    subst hok
    unfold IO_Event_Selector_EPoll_io_wait_arm
    rw [if_pos (by simpa [bne_iff_ne] using hcov)]
    dsimp only
    refine ⟨?_, rfl, rfl, rfl⟩
    by_cases h0 : armed = 0
    · rw [if_neg (by simp [h0]), if_neg (by simp [h0])]
    · rw [if_pos (by simpa [bne_iff_ne] using h0), if_pos h0]

/-- Witness for C4: a covered request (armed READABLE, requesting READABLE)
issues no syscall, and an uncovered request on an unarmed record issues
`EPOLL_CTL_ADD` and widens the mask. -/
theorem epoll_io_wait_arming_witness :
    (IO_EVENT_READABLE &&& IO_EVENT_READABLE = IO_EVENT_READABLE)
    ∧ (IO_Event_Selector_EPoll_io_wait_arm IO_EVENT_READABLE IO_EVENT_READABLE CtlResult.ok
        demoStore1 0 2).ctl = none
    ∧ ((0 : Nat) &&& IO_EVENT_READABLE ≠ IO_EVENT_READABLE)
    ∧ (IO_Event_Selector_EPoll_io_wait_arm 0 IO_EVENT_READABLE CtlResult.ok
        demoStore1 0 2).ctl
      = some (if (0 : Nat) ≠ 0 then CtlOp.mod else CtlOp.add,
          epoll_flags_from_events (0 ||| IO_EVENT_READABLE))
    ∧ (IO_Event_Selector_EPoll_io_wait_arm 0 IO_EVENT_READABLE CtlResult.ok
        demoStore1 0 2).armed = 0 ||| IO_EVENT_READABLE := by
  refine ⟨by decide, ?_, by decide, ?_, ?_⟩
  · exact ((epoll_io_wait_arming IO_EVENT_READABLE IO_EVENT_READABLE CtlResult.ok
      demoStore1 0 2).1 (by decide)).1
  · exact ((epoll_io_wait_arming 0 IO_EVENT_READABLE CtlResult.ok
      demoStore1 0 2).2 (by decide) rfl).1
  · exact ((epoll_io_wait_arming 0 IO_EVENT_READABLE CtlResult.ok
      demoStore1 0 2).2 (by decide) rfl).2.1

/-- C8: when `epoll_ctl` fails with `EPERM` during `io_wait`, the call does
not raise: the fiber is pushed onto the ready queue, the selector yields,
the originally requested events are returned unchanged, no waiter is linked
(the store is untouched) and the recorded armed mask is unchanged. -/
theorem epoll_io_wait_eperm (armed req : Nat) (st : Store) (s nodeId : Nat)
    (hcov : armed &&& req ≠ req) :
    (IO_Event_Selector_EPoll_io_wait_arm armed req CtlResult.eperm st s nodeId).returned
        = some req
    ∧ (IO_Event_Selector_EPoll_io_wait_arm armed req CtlResult.eperm st s nodeId).queuePushed
        = true
    ∧ (IO_Event_Selector_EPoll_io_wait_arm armed req CtlResult.eperm st s nodeId).yielded = true
    ∧ (IO_Event_Selector_EPoll_io_wait_arm armed req CtlResult.eperm st s nodeId).store = st
    ∧ (IO_Event_Selector_EPoll_io_wait_arm armed req CtlResult.eperm st s nodeId).armed = armed
    ∧ (IO_Event_Selector_EPoll_io_wait_arm armed req CtlResult.eperm st s nodeId).raised
        = false := by
  unfold IO_Event_Selector_EPoll_io_wait_arm
  rw [if_pos (by simpa [bne_iff_ne] using hcov)]
  exact ⟨rfl, rfl, rfl, rfl, rfl, rfl⟩

/-- Witness for C8: requesting READABLE on an unarmed record with an EPERM
answer returns the requested events, pushes and yields, and changes nothing. -/
theorem epoll_io_wait_eperm_witness :
    ((0 : Nat) &&& IO_EVENT_READABLE ≠ IO_EVENT_READABLE)
    ∧ (IO_Event_Selector_EPoll_io_wait_arm 0 IO_EVENT_READABLE CtlResult.eperm
        demoStore1 0 2).returned = some IO_EVENT_READABLE
    ∧ (IO_Event_Selector_EPoll_io_wait_arm 0 IO_EVENT_READABLE CtlResult.eperm
        demoStore1 0 2).store = demoStore1
    ∧ (IO_Event_Selector_EPoll_io_wait_arm 0 IO_EVENT_READABLE CtlResult.eperm
        demoStore1 0 2).armed = 0 := by
  refine ⟨by decide, ?_, ?_, ?_⟩
  · exact (epoll_io_wait_eperm 0 IO_EVENT_READABLE demoStore1 0 2 (by decide)).1
  · exact (epoll_io_wait_eperm 0 IO_EVENT_READABLE demoStore1 0 2 (by decide)).2.2.2.1
  · exact (epoll_io_wait_eperm 0 IO_EVENT_READABLE demoStore1 0 2 (by decide)).2.2.2.2.1

/-- Counterexample to C5 as stated: `process_wait` on the epoll backend,
resumed with the cancellation sentinel, does not return a falsy result and
does not avoid kernel work — it queries the process status and closes the
pidfd. -/
theorem process_wait_cancellation_counterexample :
    (EPoll_process_wait_finish Resume.cancelled 42 demoStore1 1 5 7).1
        = WaitReturn.value (some 42)
    ∧ WaitReturn.value (some 42) ≠ WaitReturn.value none
    ∧ (EPoll_process_wait_finish Resume.cancelled 42 demoStore1 1 5 7).2.2
        = [HostCall.statusWait 7, HostCall.closeFd 5]
    ∧ (KQueue_process_wait_finish Resume.cancelled 42 demoStore1 1 7).1
        = WaitReturn.value (some 42) := by
  refine ⟨rfl, by decide, rfl, rfl⟩

/-- C5 (amended): on both backends `io_wait` detects the cancellation
sentinel and returns the falsy "no events" result with no kernel or host
call on that path, and every wait primitive unlinks its waiter on every exit
path (normal resumption, cancellation, exception); `process_wait` however
does not examine the sentinel — it still queries the process status (and on
epoll closes the pidfd) and returns that status. -/
theorem wait_primitive_cancellation (st : Store) (nodeId status : Nat) (fd pid : Int) :
    (EPoll_io_wait_finish Resume.cancelled st nodeId).1 = WaitReturn.value none
    ∧ (EPoll_io_wait_finish Resume.cancelled st nodeId).2.2 = []
    ∧ (KQueue_io_wait_finish Resume.cancelled st nodeId).1 = WaitReturn.value none
    ∧ (KQueue_io_wait_finish Resume.cancelled st nodeId).2.2 = []
    ∧ (∀ resume, (EPoll_io_wait_finish resume st nodeId).2.1 = IO_Event_List_pop st nodeId)
    ∧ (∀ resume, (KQueue_io_wait_finish resume st nodeId).2.1 = IO_Event_List_pop st nodeId)
    ∧ (∀ resume, (EPoll_process_wait_finish resume status st nodeId fd pid).2.1
        = IO_Event_List_pop st nodeId)
    ∧ (∀ resume, (KQueue_process_wait_finish resume status st nodeId pid).2.1
        = IO_Event_List_pop st nodeId)
    ∧ (EPoll_process_wait_finish Resume.cancelled status st nodeId fd pid).1
        = WaitReturn.value (some status)
    ∧ (EPoll_process_wait_finish Resume.cancelled status st nodeId fd pid).2.2
        = [HostCall.statusWait pid, HostCall.closeFd fd]
    ∧ (KQueue_process_wait_finish Resume.cancelled status st nodeId pid).1
        = WaitReturn.value (some status) := by
  refine ⟨rfl, rfl, rfl, rfl, ?_, ?_, ?_, ?_, rfl, rfl, rfl⟩ <;>
    (intro resume; cases resume <;> rfl)

/-- C6 at the failing input: reading into a buffer of size 10 from starting
offset 1 with requested length 5, where the kernel returns 3 then 2 bytes
(so 5 bytes were transferred and the loop breaks on reaching the length),
the epoll loop returns 6 — the final buffer offset — while the kqueue loop
returns the transferred total 5. -/
theorem io_read_return_value_divergence :
    EPoll_io_read_loop 10 [RWResult.ok 3, RWResult.ok 2] 5 1
        = ⟨LoopRet.result 6 0, []⟩
    ∧ KQueue_io_read_loop 10 [RWResult.ok 3, RWResult.ok 2] 5 1 0
        = ⟨LoopRet.result 5 0, []⟩
    ∧ (6 : Int) ≠ 5 := by
  refine ⟨by decide, by decide, by decide⟩

/-- C7 at the failing input: a first write failing with EAGAIN at remaining
length 5 makes the epoll write loop request WRITABLE from `io_wait` but the
kqueue write loop request READABLE. -/
theorem io_write_retry_event_divergence :
    EPoll_io_write_loop 10 [RWResult.err Errno.eagain, RWResult.ok 5] 5 0
        = ⟨LoopRet.result 5 0, [IO_EVENT_WRITABLE]⟩
    ∧ KQueue_io_write_loop 10 [RWResult.err Errno.eagain, RWResult.ok 5] 5 0 0
        = ⟨LoopRet.result 5 0, [IO_EVENT_READABLE]⟩
    ∧ IO_EVENT_READABLE ≠ IO_EVENT_WRITABLE := by
  refine ⟨by decide, by decide, by decide⟩

theorem kqueue_handle_zero (payload : Nat → Waiting) (effect : Nat → Store → Store)
    (s v fuel : Nat) (st : Store) :
    IO_Event_Selector_KQueue_handle payload effect s v fuel 0 st
      = ⟨0, ⟨st, [], 0⟩⟩ := rfl

theorem kqueue_handle_ready_zero (payload : Nat → Waiting) (effect : Nat → Store → Store)
    (s v fuel ready : Nat) (st : Store) :
    (IO_Event_Selector_KQueue_handle payload effect s v fuel ready st).ready = 0 := by
  by_cases h : ready = 0
  · subst h
    rfl
  · unfold IO_Event_Selector_KQueue_handle
    rw [if_pos (by simpa [bne_iff_ne] using h)]

theorem kqueue_dispatch_ready_zero (payload : Nat → Waiting) (effect : Nat → Store → Store)
    (s v fuel r : Nat) (events : List KEvent) :
    ∀ st log, KQueue_select_dispatch payload effect s v fuel r events 0 st log
      = (0, st, log) := by
  induction events with
  | nil =>
    intro st log
    rfl
  | cons ev rest ih =>
    intro st log
    cases hud : ev.udata with
    | none =>
      simp only [KQueue_select_dispatch, hud]
      exact ih st log
    | some r2 =>
      simp only [KQueue_select_dispatch, hud]
      by_cases h : r2 = r
      · rw [if_pos h]
        rw [kqueue_handle_zero]
        simpa using ih st log
      · rw [if_neg h]
        exact ih st log

theorem kqueue_dispatch_once (payload : Nat → Waiting) (effect : Nat → Store → Store)
    (s v fuel r : Nat) (events : List KEvent) :
    ∀ ready st log,
      KQueue_select_dispatch payload effect s v fuel r events ready st log
        = if events.any (fun ev => ev.udata == some r) then
            (0,
              (IO_Event_Selector_KQueue_handle payload effect s v fuel ready st).walk.store,
              log ++ (IO_Event_Selector_KQueue_handle payload effect s v fuel
                  ready st).walk.log)
          else (ready, st, log) := by
  induction events with
  | nil =>
    intro ready st log
    simp [KQueue_select_dispatch]
  | cons ev rest ih =>
    intro ready st log
    cases hud : ev.udata with
    | none =>
      simp only [KQueue_select_dispatch, hud]
      rw [ih ready st log]
      simp [List.any_cons, hud]
    | some r2 =>
      simp only [KQueue_select_dispatch, hud]
      by_cases h : r2 = r
      · rw [if_pos h]
        rw [kqueue_handle_ready_zero, kqueue_dispatch_ready_zero]
        simp [List.any_cons, hud, h]
      · rw [if_neg h]
        rw [ih ready st log]
        simp [List.any_cons, hud, h]

theorem recordFired_acc (events : List KEvent) (r : Nat) :
    ∀ a b : Nat,
      events.foldl
          (fun acc ev =>
            if ev.udata = some r then acc ||| events_from_kevent_filter ev.filter else acc)
          (a ||| b)
        = a ||| events.foldl
            (fun acc ev =>
              if ev.udata = some r then acc ||| events_from_kevent_filter ev.filter else acc)
            b := by
  induction events with
  | nil =>
    intro a b
    simp
  | cons ev rest ih =>
    intro a b
    simp only [List.foldl_cons]
    by_cases h : ev.udata = some r
    · rw [if_pos h, if_pos h, Nat.lor_assoc, ih]
    · rw [if_neg h, if_neg h, ih]

theorem KQueue_accumulate_step_none (rm : ReadyMap) (ev : KEvent)
    (hud : ev.udata = none) : KQueue_accumulate_step rm ev = rm := by
  simp [KQueue_accumulate_step, hud]

theorem KQueue_accumulate_step_self (rm : ReadyMap) (ev : KEvent) (u : Nat)
    (hud : ev.udata = some u) :
    KQueue_accumulate_step rm ev u = rm u ||| events_from_kevent_filter ev.filter := by
  simp [KQueue_accumulate_step, hud]

theorem KQueue_accumulate_step_other (rm : ReadyMap) (ev : KEvent) (u r : Nat)
    (hud : ev.udata = some u) (hru : r ≠ u) :
    KQueue_accumulate_step rm ev r = rm r := by
  simp [KQueue_accumulate_step, hud, hru]

theorem KQueue_select_accumulate_spec (events : List KEvent) (r : Nat) :
    ∀ rm : ReadyMap, KQueue_select_accumulate events rm r = rm r ||| recordFired events r := by
  induction events with
  | nil =>
    intro rm
    simp [KQueue_select_accumulate, recordFired]
  | cons ev rest ih =>
    intro rm
    simp only [KQueue_select_accumulate, recordFired, List.foldl_cons] at ih ⊢
    cases hud : ev.udata with
    | none =>
      rw [if_neg (by simp [hud]), KQueue_accumulate_step_none rm ev hud]
      exact ih rm
    | some u =>
      by_cases hur : u = r
      · subst hur
        rw [if_pos (by simp [hud])]
        rw [ih, KQueue_accumulate_step_self rm ev u hud]
        have h2 := recordFired_acc rest u (events_from_kevent_filter ev.filter) 0
        rw [Nat.or_zero] at h2
        rw [Nat.zero_or, h2, Nat.lor_assoc]
      · rw [if_neg (by simp [hud, hur])]
        rw [ih, KQueue_accumulate_step_other rm ev u r hud (fun h => hur h.symm)]

/-- C9: the kqueue handler consumes the ready accumulator atomically with
the dispatch pass — it is reset to zero before any waiter is resumed, a
zero accumulator returns at once with nothing resumed and nothing changed,
the accumulator pass ORs each kernel event's logical bit into its record,
and when a record appears under several kernel events of one `select`, the
first handle call delivers the whole accumulated mask in a single walk and
every later handle call for it in the same dispatch loop is a no-op. -/
theorem kqueue_accumulator_consumed (payload : Nat → Waiting) (effect : Nat → Store → Store)
    (s v fuel r : Nat) (events : List KEvent) (rm : ReadyMap) (ready : Nat) (st : Store) :
    (IO_Event_Selector_KQueue_handle payload effect s v fuel 0 st = ⟨0, ⟨st, [], 0⟩⟩)
    ∧ ((IO_Event_Selector_KQueue_handle payload effect s v fuel ready st).ready = 0)
    ∧ (ready ≠ 0 →
        IO_Event_Selector_KQueue_handle payload effect s v fuel ready st
          = ⟨0, handle_walk payload effect ready s v fuel st⟩)
    ∧ (KQueue_select_accumulate events rm r = rm r ||| recordFired events r)
    ∧ (KQueue_select_dispatch payload effect s v fuel r events ready st []
        = if events.any (fun ev => ev.udata == some r) then
            (0,
              (IO_Event_Selector_KQueue_handle payload effect s v fuel ready st).walk.store,
              (IO_Event_Selector_KQueue_handle payload effect s v fuel ready st).walk.log)
          else (ready, st, [])) := by
  refine ⟨kqueue_handle_zero payload effect s v fuel st,
    kqueue_handle_ready_zero payload effect s v fuel ready st, ?_, ?_, ?_⟩
  · intro h
    unfold IO_Event_Selector_KQueue_handle
    rw [if_pos (by simpa [bne_iff_ne] using h)]
  · exact KQueue_select_accumulate_spec events r rm
  · rw [kqueue_dispatch_once payload effect s v fuel r events ready st []]
    simp

/-- Witness for C9: with accumulated READABLE on record 3 and two kernel
events naming it, the handler delivers once and the accumulator ends at
zero. -/
theorem kqueue_accumulator_consumed_witness :
    ((1 : Nat) ≠ 0)
    ∧ IO_Event_Selector_KQueue_handle demoPayload (selfPop fun _ => true) 0 9 2 1 demoStore1
      = ⟨0, handle_walk demoPayload (selfPop fun _ => true) 1 0 9 2 demoStore1⟩ := by
  refine ⟨by decide, ?_⟩
  exact (kqueue_accumulator_consumed demoPayload (selfPop fun _ => true) 0 9 2 3
    [⟨some 3, KFilter.read⟩, ⟨some 3, KFilter.write⟩] (fun _ => 0) 1
    demoStore1).2.2.1 (by decide)

/-! ## The epoll armed-mask invariant (claim C10) -/

theorem bitsSub_refl (a : Nat) : bitsSub a a := by
  rw [bitsSub_iff_testBit]
  intro i hi
  exact hi

theorem bitsSub_lor_absorb_right (a b : Nat) : bitsSub b (a ||| b) := by
  rw [bitsSub_iff_testBit]
  intro i hi
  simp [Nat.testBit_lor, hi]

theorem EPoll_desc_step_armed_monotone (payload : Nat → Waiting) (s : Nat)
    (d : EPollDescState) (op : EPollOp) :
    bitsSub d.armed (EPoll_desc_step payload s d op).armed := by
  cases op with
  | ioWait req ctl nodeId =>
    show bitsSub d.armed
      (IO_Event_Selector_EPoll_io_wait_arm d.armed req ctl d.store s nodeId).armed
    unfold IO_Event_Selector_EPoll_io_wait_arm
    by_cases hcov : d.armed &&& req = req
    · rw [if_neg (by simp [hcov])]
      exact bitsSub_refl _
    · rw [if_pos (by simpa [bne_iff_ne] using hcov)]
      cases ctl
      · exact bitsSub_lor_absorb _ _
      · exact bitsSub_refl _
      · exact bitsSub_refl _
  | waiterExit nodeId => exact bitsSub_refl _
  | handle flags removes fuel v => exact bitsSub_refl _

theorem EPoll_desc_run_armed_monotone (payload : Nat → Waiting) (s : Nat)
    (ops : List EPollOp) :
    ∀ d, bitsSub d.armed (ops.foldl (EPoll_desc_step payload s) d).armed := by
  induction ops with
  | nil =>
    intro d
    exact bitsSub_refl _
  | cons op rest ih =>
    intro d
    simp only [List.foldl_cons]
    exact bitsSub_trans _ _ _ (EPoll_desc_step_armed_monotone payload s d op) (ih _)

theorem epoll_handle_no_del_when_armed (payload : Nat → Waiting) (effect : Nat → Store → Store)
    (armed flags s v fuel : Nat) (st : Store) (m : Nat) (harmed : armed ≠ 0) :
    (IO_Event_Selector_EPoll_handle payload effect armed flags s v fuel st).reconcile
      ≠ some (CtlOp.del, m) := by
  unfold IO_Event_Selector_EPoll_handle
  dsimp only
  by_cases h1 : (events_from_epoll_flags flags
      != (handle_walk payload effect (events_from_epoll_flags flags) s v fuel st).matched)
      = true
  · rw [if_pos h1, if_pos (by simpa [bne_iff_ne] using harmed)]
    simp
  · rw [if_neg h1]
    simp

/-- C10: across any sequence of `io_wait` armings (successful, EPERM or
fatal), waiter unlinkings and dispatches, the recorded armed mask of an
epoll descriptor never loses a bit: `io_wait` either leaves it or ORs the
request into it, unlinking and dispatch never write it, a successful arming
of a nonempty request leaves it nonzero, once nonzero it stays nonzero, and
the reconciliation's `EPOLL_CTL_DEL` branch cannot be taken while the
recorded mask is nonzero. -/
theorem epoll_armed_mask_monotone (payload : Nat → Waiting) (s : Nat) (ops : List EPollOp)
    (d : EPollDescState) :
    bitsSub d.armed (ops.foldl (EPoll_desc_step payload s) d).armed
    ∧ (d.armed ≠ 0 → (ops.foldl (EPoll_desc_step payload s) d).armed ≠ 0)
    ∧ (∀ req ctl nodeId,
        (EPoll_desc_step payload s d (EPollOp.ioWait req ctl nodeId)).armed = d.armed
        ∨ (EPoll_desc_step payload s d (EPollOp.ioWait req ctl nodeId)).armed
            = d.armed ||| req)
    ∧ (∀ nodeId, (EPoll_desc_step payload s d (EPollOp.waiterExit nodeId)).armed = d.armed)
    ∧ (∀ flags removes fuel v,
        (EPoll_desc_step payload s d (EPollOp.handle flags removes fuel v)).armed = d.armed)
    ∧ (∀ req nodeId, req ≠ 0 →
        (EPoll_desc_step payload s d (EPollOp.ioWait req CtlResult.ok nodeId)).armed ≠ 0)
    ∧ (d.armed ≠ 0 → ∀ flags removes fuel v (st2 : Store) (m : Nat),
        (IO_Event_Selector_EPoll_handle payload (selfPop removes) d.armed flags s v
            fuel st2).reconcile ≠ some (CtlOp.del, m)) := by
  refine ⟨EPoll_desc_run_armed_monotone payload s ops d, ?_, ?_, ?_, ?_, ?_, ?_⟩
  · intro h0
    exact bitsSub_ne_zero _ _ (EPoll_desc_run_armed_monotone payload s ops d) h0
  · intro req ctl nodeId
    show (IO_Event_Selector_EPoll_io_wait_arm d.armed req ctl d.store s nodeId).armed = d.armed
      ∨ (IO_Event_Selector_EPoll_io_wait_arm d.armed req ctl d.store s nodeId).armed
          = d.armed ||| req
    unfold IO_Event_Selector_EPoll_io_wait_arm
    by_cases hcov : d.armed &&& req = req
    · rw [if_neg (by simp [hcov])]
      exact Or.inl rfl
    · rw [if_pos (by simpa [bne_iff_ne] using hcov)]
      cases ctl
      · exact Or.inr rfl
      · exact Or.inl rfl
      · exact Or.inl rfl
  · intro nodeId
    rfl
  · intro flags removes fuel v
    rfl
  · intro req nodeId hreq
    show (IO_Event_Selector_EPoll_io_wait_arm d.armed req CtlResult.ok d.store s nodeId).armed
      ≠ 0
    unfold IO_Event_Selector_EPoll_io_wait_arm
    by_cases hcov : d.armed &&& req = req
    · rw [if_neg (by simp [hcov])]
      have hsub : bitsSub req d.armed := by
        unfold bitsSub
        rw [Nat.land_comm]
        exact hcov
      exact bitsSub_ne_zero _ _ hsub hreq
    · rw [if_pos (by simpa [bne_iff_ne] using hcov)]
      exact bitsSub_ne_zero _ _ (bitsSub_lor_absorb_right d.armed req) hreq
  · intro h0 flags removes fuel v st2 m
    exact epoll_handle_no_del_when_armed payload (selfPop removes) d.armed flags s v fuel
      st2 m h0

/-- Witness for C10: starting from a record armed for READABLE, arming
WRITABLE and then unlinking the waiter leaves every original bit set and the
mask nonzero. -/
theorem epoll_armed_mask_monotone_witness :
    (IO_EVENT_READABLE ≠ 0)
    ∧ bitsSub IO_EVENT_READABLE
        (([EPollOp.ioWait IO_EVENT_WRITABLE CtlResult.ok 2,
            EPollOp.waiterExit 2].foldl (EPoll_desc_step demoPayload 0)
          ⟨IO_EVENT_READABLE, demoStore1⟩).armed)
    ∧ ([EPollOp.ioWait IO_EVENT_WRITABLE CtlResult.ok 2,
          EPollOp.waiterExit 2].foldl (EPoll_desc_step demoPayload 0)
        ⟨IO_EVENT_READABLE, demoStore1⟩).armed ≠ 0 := by
  refine ⟨by decide, ?_, ?_⟩
  · exact (epoll_armed_mask_monotone demoPayload 0
      [EPollOp.ioWait IO_EVENT_WRITABLE CtlResult.ok 2, EPollOp.waiterExit 2]
      ⟨IO_EVENT_READABLE, demoStore1⟩).1
  · exact (epoll_armed_mask_monotone demoPayload 0
      [EPollOp.ioWait IO_EVENT_WRITABLE CtlResult.ok 2, EPollOp.waiterExit 2]
      ⟨IO_EVENT_READABLE, demoStore1⟩).2.1 (by decide)

end IOEvent
